import Mathlib

/-!
Shallow embedding of src/scripts/obs_recording_hash_sha256.py.

The script is an OBS Python script: on a recording-stopped event it waits for
the file to stabilize, hashes it, writes a sidecar, and appends a deduplicated
row to a CSV ledger guarded by an I/O lock and a seen-set membership lock.

Modelling conventions:
- Strings are Lean String; path manipulation (os.path.abspath, normpath,
  dirname, basename, join, expanduser and str.strip) is modelled on the POSIX
  implementation of the Python standard library, working over List Char.
  os.path.normcase is the identity on POSIX, and is modelled as such.
- The filesystem and other I/O are modelled by explicit environments: the
  ledger file is an Option over a list of rows (none means the file does not
  exist, some [] means it exists with size zero), and fallible operations
  (open, write, getsize, isdir, makedirs) take their outcomes from environment
  records, so that a theorem quantifying over the environment covers every
  pattern of I/O success and failure, including raised exceptions.
- The Python code holds the _io_lock and _seen_lock around the whole
  check-insert-write section of _append_csv_row, so concurrent appends
  serialize at that critical section; an interleaved execution is therefore
  modelled as a sequence of atomic append operations.
- time.sleep has no observable effect on any returned value and is dropped;
  the delay parameters are kept in the signatures for fidelity.
-/

/-- Python str.strip default whitespace characters (the ASCII ones). -/
def isPyWs (c : Char) : Bool :=
  c == ' ' || c == '\t' || c == '\n' || c == '\r' || c == Char.ofNat 11 || c == Char.ofNat 12

/-- Strip characters satisfying p from both ends of a character list
(the shape of Python str.strip). -/
def stripWhile (p : Char → Bool) (l : List Char) : List Char :=
  ((l.dropWhile p).reverse.dropWhile p).reverse

/-- Python str.strip() on the character list of a string. -/
def pstripL (l : List Char) : List Char := stripWhile isPyWs l

/-- Python str.strip() with no arguments. -/
def pstrip (s : String) : String := ⟨pstripL s.data⟩

/-- Split a character list on the slash character, as Python str.split under
posixpath.normpath does; always returns at least one (possibly empty) piece. -/
def splitSlash : List Char → List (List Char)
  | [] => [[]]
  | c :: t =>
    if c = '/' then [] :: splitSlash t
    else
      match splitSlash t with
      | [] => [[c]]
      | h :: r => (c :: h) :: r

/-- Join path components with slashes (inverse of splitSlash on slash-free
nonempty component lists). -/
def joinSlash : List (List Char) → List Char
  | [] => []
  | [a] => a
  | a :: t => a ++ '/' :: joinSlash t

/-- The ".." path component. -/
def dotdot : List Char := ['.', '.']

/-- One step of posixpath.normpath component processing. The accumulator is
the reversed new_comps list of the Python source, so Python append is cons and
Python pop drops the head. -/
def normStep (rooted : Bool) (acc : List (List Char)) (comp : List Char) : List (List Char) :=
  if comp = [] ∨ comp = ['.'] then acc
  else if comp = dotdot then
    if acc = [] then (if rooted then [] else [comp])
    else if acc.headI = dotdot then comp :: acc
    else acc.tail
  else comp :: acc

/-- posixpath.normpath component normalization: fold normStep and restore the
original order. -/
def normComps (rooted : Bool) (comps : List (List Char)) : List (List Char) :=
  (comps.foldl (normStep rooted) []).reverse

/-- Number of initial slashes posixpath.normpath preserves: one, or exactly two
when the path starts with two but not three slashes. -/
def leadSlashes (p : List Char) : Nat :=
  if p.take 1 = ['/'] then
    if p.take 2 = ['/', '/'] ∧ ¬ p.take 3 = ['/', '/', '/'] then 2 else 1
  else 0

/-- posixpath.normpath over a character list. -/
def normpathL (p : List Char) : List Char :=
  if p = [] then ['.']
  else
    let k := leadSlashes p
    let nc := normComps (k != 0) (splitSlash p)
    let out := List.replicate k '/' ++ joinSlash nc
    if out = [] then ['.'] else out

/-- posixpath.isabs over a character list: startswith slash. -/
def isabsL (p : List Char) : Bool := decide (p.take 1 = ['/'])

/-- posixpath.join restricted to two components, as os.path.abspath uses it. -/
def joinL (a b : List Char) : List Char :=
  if isabsL b then b
  else if a = [] ∨ a.getLast? = some '/' then a ++ b
  else a ++ '/' :: b

/-- posixpath.abspath over character lists, with the working directory passed
explicitly. -/
def abspathL (cwd p : List Char) : List Char :=
  if isabsL p then normpathL p else normpathL (joinL cwd p)

/-- The script's _to_abs_path: empty in, empty out; otherwise os.path.abspath
(which does not raise in this model, so the except branch is dead). -/
def to_abs_path (cwd : String) (path : String) : String :=
  if path = "" then "" else ⟨abspathL cwd.data path.data⟩

/-- os.path.normcase on POSIX: the identity. -/
def normcase (p : String) : String := p

/-- posixpath.dirname: everything before the last slash, with trailing slashes
stripped unless the head consists only of slashes. -/
def dirnameL (p : List Char) : List Char :=
  let head := (p.reverse.dropWhile (fun c => !(c == '/'))).reverse
  if head ≠ [] ∧ ¬ (∀ c ∈ head, c = '/') then
    (head.reverse.dropWhile (· == '/')).reverse
  else head

/-- os.path.dirname on strings. -/
def dirname (p : String) : String := ⟨dirnameL p.data⟩

/-- posixpath.basename: everything after the last slash. -/
def basename (p : String) : String := ⟨(p.data.reverse.takeWhile (fun c => !(c == '/'))).reverse⟩

/-- os.path.join on strings (two arguments). -/
def joinPath (a b : String) : String := ⟨joinL a.data b.data⟩

/-- posixpath.expanduser: a leading tilde expands to the home directory (or a
named user's home from the user database, modelled as a lookup function); a
path not starting with a tilde, or naming an unknown user, is returned as is. -/
def expanduserL (home : List Char) (userHomes : String → Option String) (p : List Char) : List Char :=
  match p with
  | '~' :: rest =>
    let user := rest.takeWhile (fun c => !(c == '/'))
    let tail := rest.dropWhile (fun c => !(c == '/'))
    let uh : Option (List Char) :=
      if user = [] then some home
      else
        match userHomes ⟨user⟩ with
        | some h => some h.data
        | none => none
    match uh with
    | none => p
    | some h =>
      let r := (h.reverse.dropWhile (· == '/')).reverse ++ tail
      if r = [] then ['/'] else r
  | _ => p

/-- Process-environment parameters of the POSIX model: the working directory
(feeding os.path.abspath), the home directory and the user database (feeding
os.path.expanduser). -/
structure OsEnv where
  cwd : String
  home : String
  userHomes : String → Option String

/-- The script's _clean_path: empty in, empty out; otherwise strip whitespace,
strip double quotes, expand a user prefix, then os.path.abspath. -/
def clean_path (os : OsEnv) (path : String) : String :=
  if path = "" then ""
  else
    let p1 := stripWhile (· == '"') (pstripL path.data)
    let p2 := expanduserL os.home.data os.userHomes p1
    ⟨abspathL os.cwd.data p2⟩

/-- The mutable script state shared across workers: the deduplication seen set
(_seen_paths, modelled as a duplicate-free list used as a set) and the ledger
path it was loaded from (_loaded_csv_path). -/
structure ScriptState where
  seen : List String
  loaded_csv_path : String
deriving DecidableEq

/-- The validated contents of the _SETTINGS dictionary. -/
structure Settings where
  hash_output_dir : String
  csv_path : String
  csv_delimiter : String
  retry_count : Nat
  retry_delay_ms : Nat
deriving DecidableEq

/-- The raw values read from the OBS settings object in script_update, before
validation; the counts are Python ints. -/
structure RawSettings where
  hash_output_dir : String
  csv_path : String
  csv_delimiter : String
  retry_count : Int
  retry_delay_ms : Int

/-- The ledger CSV file: none when the file does not exist, some rows when it
exists (some [] is an existing zero-size file; every written row serializes to
at least one byte, so zero size coincides with no rows). -/
abbrev Ledger := Option (List (List String))

/-- The six-column ledger header row written by _append_csv_row. -/
def headerRow : List String :=
  ["end_time_iso", "file_path", "file_name", "file_size_bytes", "duration_seconds", "sha256"]

/-- The data row _append_csv_row builds for one recording. -/
def ledgerRow (end_time_iso file_path file_name : String)
    (file_size_bytes : Nat) (duration_seconds : Option Nat) (sha256 : String) : List String :=
  [end_time_iso, file_path, file_name, toString file_size_bytes,
    (match duration_seconds with | none => "" | some d => toString d), sha256]

/-- Python set.add on the list-as-set representation. -/
def setAdd (acc : List String) (x : String) : List String :=
  if x ∈ acc then acc else x :: acc

/-- Python list.index with the ValueError fallback of _reload_seen_paths_from:
the position of the first occurrence, or 1 when absent. -/
def pyIndex (l : List String) (x : String) : Nat :=
  match l.findIdx? (fun s => s == x) with
  | some i => i
  | none => 1

/-- The normalization _reload_seen_paths_from applies to a ledger cell before
inserting it into the seen set: strip, _to_abs_path, os.path.normcase. -/
def loadNormalize (cwd : String) (cell : String) : String :=
  normcase (to_abs_path cwd (pstrip cell))

/-- The normalization _process_recording applies to a trigger path before the
dedupe checks: _to_abs_path, then os.path.normcase. -/
def processNormalize (cwd : String) (p : String) : String :=
  normcase (to_abs_path cwd p)

/-- One row's contribution to the seen set during reload: the cell at the file
path column, when present and nonempty after stripping, normalized. -/
def rowPath (cwd : String) (idx : Nat) (row : List String) : Option String :=
  if idx < row.length then
    let p := pstrip (row.getD idx "")
    if p = "" then none else some (loadNormalize cwd (row.getD idx ""))
  else none

/-- Fold the data rows into a seen set at a fixed file path column index. -/
def addRows (cwd : String) (idx : Nat) (rows : List (List String)) (acc : List String) : List String :=
  rows.foldl (fun acc row =>
    match rowPath cwd idx row with
    | some n => setAdd acc n
    | none => acc) acc

/-- The header-aware seen-set load of _reload_seen_paths_from: if the first
row starts with the header marker, look up the file path column by name
(defaulting to 1) and skip that row; otherwise treat every row as data with
column 1. -/
def seenFromRows (cwd : String) (rows : List (List String)) : List String :=
  match rows with
  | [] => []
  | r :: rest =>
    if r ≠ [] ∧ r.headD "" = "end_time_iso" then
      addRows cwd (pyIndex r "file_path") rest []
    else addRows cwd 1 (r :: rest) []

/-- I/O outcomes of one _reload_seen_paths_from call: whether os.path.exists
sees the file, whether the open raises, the rows the csv reader would produce,
and whether iteration raises after some number of rows (none: the whole file is
read; some k: an exception is raised after k rows were consumed). -/
structure ReloadEnv where
  fileExists : Bool
  openOk : Bool
  rows : List (List String)
  failAfter : Option Nat

/-- The rows actually consumed before a possible mid-iteration exception. -/
def consumedRows (env : ReloadEnv) : List (List String) :=
  match env.failAfter with
  | none => env.rows
  | some k => env.rows.take k

/-- The script's _reload_seen_paths_from: clear the seen set and record the
source path first; return early on an empty path or a missing file; an open
failure is caught and logged; a mid-iteration failure is caught and logged,
keeping the insertions made so far. -/
def reload_seen_paths_from (cwd : String) (env : ReloadEnv) (csv_path : String)
    (_st : ScriptState) : ScriptState :=
  let st1 : ScriptState := ⟨[], csv_path⟩
  if csv_path = "" ∨ env.fileExists = false then st1
  else if env.openOk = false then st1
  else ⟨seenFromRows cwd (consumedRows env), csv_path⟩

/-- The script's _ensure_seen_paths: reload only when the cache's recorded
source path differs from the target, and never for an empty target. -/
def ensure_seen_paths (cwd : String) (env : ReloadEnv) (csv_path : String)
    (st : ScriptState) : ScriptState :=
  if csv_path = "" then st
  else if st.loaded_csv_path = csv_path then st
  else reload_seen_paths_from cwd env csv_path st

/-- The script's script_update: validate the raw settings (bad delimiter
becomes a comma, retry_count below 1 becomes 5, negative delay becomes 400),
store them, and reload the seen cache only when the cleaned csv path is
nonempty. -/
def script_update (os : OsEnv) (env : ReloadEnv) (raw : RawSettings)
    (st : ScriptState) : Settings × ScriptState :=
  let hod := clean_path os raw.hash_output_dir
  let cp := clean_path os raw.csv_path
  let delim := if ¬ (raw.csv_delimiter = "," ∨ raw.csv_delimiter = ";") then "," else raw.csv_delimiter
  let rc : Int := if raw.retry_count < 1 then 5 else raw.retry_count
  let rd : Int := if raw.retry_delay_ms < 0 then 400 else raw.retry_delay_ms
  let cfg : Settings := ⟨hod, cp, delim, rc.toNat, rd.toNat⟩
  if cp ≠ "" then (cfg, reload_seen_paths_from os.cwd env cp st)
  else (cfg, st)

/-- The script's _resolve_csv_path: the configured path when set, else the
recording directory joined with the default file name, else empty. -/
def resolve_csv_path (cfg : Settings) (recording_path : String) : String :=
  if cfg.csv_path ≠ "" then cfg.csv_path
  else
    let rec_dir := dirname recording_path
    if rec_dir = "" then "" else joinPath rec_dir "recording_hashes.csv"

/-- I/O outcomes of one _append_csv_row call: the environment its
_ensure_seen_paths reload would see, and whether the makedirs-open-write block
completes (false models an exception anywhere in that try block, with no byte
written). -/
structure AppendEnv where
  reload : ReloadEnv
  writeOk : Bool

/-- The script's _append_csv_row. The critical section from the dedupe check
through the write holds both _io_lock and _seen_lock, so it executes
atomically with respect to other appends; a write failure rolls the fresh
insertion back with set.discard. Returns the reported boolean with the
resulting shared state and ledger file. -/
def append_csv_row (cwd : String) (cfg : Settings) (env : AppendEnv)
    (st : ScriptState) (led : Ledger) (end_time_iso file_path file_name : String)
    (file_size_bytes : Nat) (duration_seconds : Option Nat) (sha256 : String) :
    Bool × ScriptState × Ledger :=
  let csv_path := resolve_csv_path cfg file_path
  if csv_path = "" then (false, st, led)
  else
    let st := ensure_seen_paths cwd env.reload csv_path st
    let row := ledgerRow end_time_iso file_path file_name file_size_bytes duration_seconds sha256
    let norm := normcase file_path
    if norm ∈ st.seen then (false, st, led)
    else
      if env.writeOk then
        let isNew := led = none ∨ led = some []
        let newRows := (led.getD []) ++ (if isNew then [headerRow] else []) ++ [row]
        (true, ⟨norm :: st.seen, st.loaded_csv_path⟩, some newRows)
      else
        (false, ⟨(norm :: st.seen).filter (fun x => ¬ (x = norm)), st.loaded_csv_path⟩, led)

/-- One append request of an interleaved execution: the per-call I/O outcomes
and the row arguments. -/
structure AppendReq where
  env : AppendEnv
  end_time_iso : String
  file_path : String
  file_name : String
  file_size_bytes : Nat
  duration_seconds : Option Nat
  sha256 : String

/-- Run one append request against the shared state and ledger. -/
def doAppend (cwd : String) (cfg : Settings) (p : ScriptState × Ledger) (r : AppendReq) :
    ScriptState × Ledger :=
  let res := append_csv_row cwd cfg r.env p.1 p.2 r.end_time_iso r.file_path r.file_name
    r.file_size_bytes r.duration_seconds r.sha256
  (res.2.1, res.2.2)

/-- A sequence of completed append operations; because the critical section of
_append_csv_row holds both locks, every interleaving serializes into such a
sequence. -/
def runAppends (cwd : String) (cfg : Settings) (reqs : List AppendReq)
    (st : ScriptState) (led : Ledger) : ScriptState × Ledger :=
  reqs.foldl (doAppend cwd cfg) (st, led)

/-- Whether a ledger file row is a data row whose file path column normalizes
to the given key (the header row is not a data row). -/
def rowKeyPred (k : String) (r : List String) : Bool :=
  decide (r ≠ headerRow ∧ normcase (r.getD 1 "") = k)

/-- Number of data rows of the ledger file whose file path column normalizes
to the given key. -/
def dataCount (led : Ledger) (k : String) : Nat :=
  (led.getD []).countP (rowKeyPred k)

/-- Every normalized path with a data row in the ledger is covered by the seen
set: the reconciliation invariant between cache and file. -/
def SeenCovers (st : ScriptState) (led : Ledger) : Prop :=
  ∀ k, 1 ≤ dataCount led k → k ∈ st.seen

/-- At most one data row per normalized path. -/
def AtMostOnce (led : Ledger) : Prop :=
  ∀ k, dataCount led k ≤ 1

/-- What one attempt of _wait_for_stable_file observes: the os.path.exists
answer, and the two os.path.getsize answers (none models a raised OSError; the
second read only happens when the first succeeded). -/
structure ProbeAttempt where
  fexists : Bool
  size1 : Option Nat
  size2 : Option Nat

/-- The success content of one probe attempt: some size when the file exists
and both reads return that same positive size, none otherwise (missing file,
OSError on either read, differing sizes, or zero size). -/
def probeSuccess (a : ProbeAttempt) : Option Nat :=
  if a.fexists then
    match a.size1, a.size2 with
    | some s1, some s2 => if s1 = s2 ∧ 0 < s2 then some s2 else none
    | _, _ => none
  else none

/-- The retry loop of _wait_for_stable_file over the remaining budget, with i
the index of the current attempt in the environment. -/
def waitStableGo (env : Nat → ProbeAttempt) : Nat → Nat → Bool × Nat
  | _, 0 => (false, 0)
  | i, k + 1 =>
    match probeSuccess (env i) with
    | some s => (true, s)
    | none => waitStableGo env (i + 1) k

/-- The script's _wait_for_stable_file: up to retries attempts; sleeps do not
affect the returned value, and OSError from a size read is caught, logged at
the end, and treated as a failed attempt. -/
def wait_for_stable_file (env : Nat → ProbeAttempt) (retries : Nat) (_delay_ms : Nat) :
    Bool × Nat :=
  waitStableGo env 0 retries

/-- What one attempt of _hash_file_with_retries observes: a successful chunked
SHA-256 hex digest, a raised OSError, or any other raised exception (the two
failure kinds differ only in log level; both are retried). -/
inductive HashAttempt where
  | success (digest : String)
  | osError
  | otherError
deriving DecidableEq

/-- The digest of an attempt, when it succeeded. -/
def hashSuccess : HashAttempt → Option String
  | .success d => some d
  | .osError => none
  | .otherError => none

/-- The retry loop of _hash_file_with_retries. -/
def hashRetryGo (env : Nat → HashAttempt) : Nat → Nat → String
  | _, 0 => ""
  | i, k + 1 =>
    match hashSuccess (env i) with
    | some d => d
    | none => hashRetryGo env (i + 1) k

/-- The script's _hash_file_with_retries: return the digest of the first
successful attempt, retry both error kinds, and return the empty string once
the budget is exhausted. -/
def hash_file_with_retries (env : Nat → HashAttempt) (retries : Nat) (_delay_ms : Nat) : String :=
  hashRetryGo env 0 retries

/-- I/O outcomes of one _process_recording run: the probe and hash attempt
environments, the directory checks of _resolve_hash_output_dir, the boolean
outcome of _write_sidecar, and the append call's own environment. -/
structure PipeEnv where
  probe : Nat → ProbeAttempt
  hash : Nat → HashAttempt
  configuredDirOk : Bool
  makedirsOk : Bool
  recDirOk : Bool
  sidecarOk : Bool
  append : AppendEnv

/-- The observable outcome of one _process_recording run: the resulting shared
state and ledger, whether _write_sidecar was called and what it reported, and
whether _append_csv_row was called and with which digest. -/
structure PipeResult where
  st : ScriptState
  led : Ledger
  sidecarCalled : Bool
  sidecarReported : Bool
  ledgerCalled : Bool
  ledgerDigest : String
deriving DecidableEq

/-- The script's _resolve_hash_output_dir: a configured directory that exists
or can be created, else the recording's directory when it exists, else
empty. -/
def resolve_hash_output_dir (cfg : Settings) (env : PipeEnv) (recording_path : String) : String :=
  let rec_dir := dirname recording_path
  let fallback := if rec_dir ≠ "" ∧ env.recDirOk then rec_dir else ""
  if cfg.hash_output_dir ≠ "" then
    if env.configuredDirOk then cfg.hash_output_dir
    else if env.makedirsOk then cfg.hash_output_dir
    else fallback
  else fallback

/-- The script's _process_recording pipeline for one recording: resolve the
absolute path, advisory dedupe check against the seen set, stability wait,
retrying hash, output directory resolution, best-effort sidecar write, then
the ledger append; each failing stage aborts the run (sidecar failure is only
logged). -/
def process_recording (cwd : String) (cfg : Settings) (env : PipeEnv)
    (st : ScriptState) (led : Ledger)
    (path end_time_iso : String) (duration_seconds : Option Nat) : PipeResult :=
  let failed : PipeResult := ⟨st, led, false, false, false, ""⟩
  let abs_path := to_abs_path cwd path
  if abs_path = "" then failed
  else
    let norm_path := normcase abs_path
    if norm_path ∈ st.seen then failed
    else
      let ws := wait_for_stable_file env.probe cfg.retry_count cfg.retry_delay_ms
      if ws.1 = false then failed
      else
        let sha256_hex := hash_file_with_retries env.hash cfg.retry_count cfg.retry_delay_ms
        if sha256_hex = "" then failed
        else
          let output_dir := resolve_hash_output_dir cfg env abs_path
          if output_dir = "" then failed
          else
            let r := append_csv_row cwd cfg env.append st led end_time_iso abs_path
              (basename abs_path) ws.2 duration_seconds sha256_hex
            ⟨r.2.1, r.2.2, true, env.sidecarOk, true, sha256_hex⟩

/-- A normalized path component: nonempty, not the dot component, slash-free. -/
def GoodComp (x : List Char) : Prop :=
  x ≠ [] ∧ x ≠ ['.'] ∧ ∀ c ∈ x, c ≠ '/'

/-- Once a dotdot component occurs, every later element is dotdot (so the
dotdot components of the reversed accumulator form a suffix). -/
def ddSuffix : List (List Char) → Prop
  | [] => True
  | c :: t => (c = dotdot → ∀ x ∈ t, x = dotdot) ∧ ddSuffix t

/-- Invariant of the normStep accumulator (the reversed new_comps list): all
components are normalized; when rooted no dotdot survives, otherwise the
dotdot components form a suffix of the accumulator. -/
def AccOk (rooted : Bool) (acc : List (List Char)) : Prop :=
  (∀ x ∈ acc, GoodComp x) ∧ (rooted = true → ∀ x ∈ acc, x ≠ dotdot) ∧
    (rooted = false → ddSuffix acc)

theorem ddSuffix_nil : ddSuffix [] := trivial

theorem ddSuffix_cons (c : List Char) (t : List (List Char)) :
    ddSuffix (c :: t) ↔ (c = dotdot → ∀ x ∈ t, x = dotdot) ∧ ddSuffix t := Iff.rfl

theorem splitSlash_ne_nil : ∀ l : List Char, splitSlash l ≠ []
  | [] => by simp [splitSlash]
  | c :: t => by
    simp only [splitSlash]
    split
    · simp
    · split <;> simp

theorem mem_splitSlash_no_slash : ∀ (l x : List Char), x ∈ splitSlash l → ∀ c ∈ x, c ≠ '/' := by
  intro l
  induction l with
  | nil =>
    intro x hx
    simp only [splitSlash, List.mem_singleton] at hx
    subst hx
    simp
  | cons a t ih =>
    intro x hx c hc
    simp only [splitSlash] at hx
    by_cases ha : a = '/'
    · rw [if_pos ha] at hx
      rcases List.mem_cons.mp hx with h | h
      · subst h; cases hc
      · exact ih x h c hc
    · rw [if_neg ha] at hx
      rcases hs : splitSlash t with _ | ⟨h1, r⟩
      · exact absurd hs (splitSlash_ne_nil t)
      · rw [hs] at hx
        have hh1 : h1 ∈ splitSlash t := by
          rw [hs]; exact List.mem_cons_self h1 r
        rcases List.mem_cons.mp hx with h | h
        · subst h
          rcases List.mem_cons.mp hc with h | h
          · subst h; exact ha
          · exact ih h1 hh1 c h
        · have hx2 : x ∈ splitSlash t := by
            rw [hs]; exact List.mem_cons_of_mem h1 h
          exact ih x hx2 c hc

theorem splitSlash_no_slash_self : ∀ l : List Char, (∀ c ∈ l, c ≠ '/') → splitSlash l = [l] := by
  intro l
  induction l with
  | nil => intro; rfl
  | cons a t ih =>
    intro h
    have ha : a ≠ '/' := h a (List.mem_cons_self a t)
    simp only [splitSlash, if_neg ha]
    rw [ih (fun c hc => h c (List.mem_cons_of_mem a hc))]

theorem splitSlash_append_no_slash :
    ∀ (a b h : List Char) (r : List (List Char)), (∀ c ∈ a, c ≠ '/') →
      splitSlash b = h :: r → splitSlash (a ++ b) = (a ++ h) :: r := by
  intro a
  induction a with
  | nil =>
    intro b h r _ hb
    simpa using hb
  | cons c a' ih =>
    intro b h r hns hb
    have hc : c ≠ '/' := hns c (List.mem_cons_self c a')
    have htail : splitSlash (a' ++ b) = (a' ++ h) :: r :=
      ih b h r (fun d hd => hns d (List.mem_cons_of_mem c hd)) hb
    have hcons : (c :: a') ++ b = c :: (a' ++ b) := rfl
    rw [hcons]
    simp only [splitSlash, if_neg hc]
    rw [htail]
    rfl

theorem splitSlash_slash_cons (t : List Char) : splitSlash ('/' :: t) = [] :: splitSlash t := by
  simp [splitSlash]

theorem splitSlash_joinSlash :
    ∀ l : List (List Char), l ≠ [] → (∀ x ∈ l, ∀ c ∈ x, c ≠ '/') →
      splitSlash (joinSlash l) = l := by
  intro l
  induction l with
  | nil => intro h; exact absurd rfl h
  | cons x t ih =>
    intro _ hns
    cases t with
    | nil =>
      show splitSlash (joinSlash [x]) = [x]
      have hj : joinSlash [x] = x := rfl
      rw [hj]
      exact splitSlash_no_slash_self x (hns x (List.mem_cons_self x []))
    | cons y t' =>
      have hx : ∀ c ∈ x, c ≠ '/' := hns x (List.mem_cons_self x (y :: t'))
      have hrest : splitSlash (joinSlash (y :: t')) = y :: t' :=
        ih (by simp) (fun z hz => hns z (List.mem_cons_of_mem x hz))
      have hj : joinSlash (x :: y :: t') = x ++ '/' :: joinSlash (y :: t') := rfl
      rw [hj]
      have hsl : splitSlash ('/' :: joinSlash (y :: t')) = [] :: y :: t' := by
        rw [splitSlash_slash_cons, hrest]
      have := splitSlash_append_no_slash x ('/' :: joinSlash (y :: t')) [] (y :: t') hx hsl
      simpa using this

theorem splitSlash_replicate_append :
    ∀ (k : Nat) (rest : List Char),
      splitSlash (List.replicate k '/' ++ rest) = List.replicate k [] ++ splitSlash rest := by
  intro k
  induction k with
  | zero => intro rest; simp
  | succ n ih =>
    intro rest
    simp only [List.replicate_succ, List.cons_append, splitSlash_slash_cons, ih]

theorem normStep_nil_comp (r : Bool) (acc : List (List Char)) : normStep r acc [] = acc := by
  unfold normStep
  rw [if_pos (Or.inl rfl)]

theorem normStep_good (r : Bool) (acc : List (List Char)) (comp : List Char)
    (h1 : comp ≠ []) (h2 : comp ≠ ['.']) (h3 : comp ≠ dotdot) :
    normStep r acc comp = comp :: acc := by
  unfold normStep
  rw [if_neg (by simp [h1, h2]), if_neg h3]

theorem normStep_eq_dd_nil (rooted : Bool) :
    normStep rooted [] dotdot = if rooted then [] else [dotdot] := by
  unfold normStep
  rw [if_neg (by decide), if_pos rfl, if_pos rfl]

theorem normStep_eq_dd_cons_dd (rooted : Bool) (rest : List (List Char)) :
    normStep rooted (dotdot :: rest) dotdot = dotdot :: dotdot :: rest := by
  unfold normStep
  rw [if_neg (by decide), if_pos rfl, if_neg (by simp),
    if_pos (show (dotdot :: rest).headI = dotdot from rfl)]

theorem normStep_eq_dd_cons_nondd (rooted : Bool) (c : List Char) (rest : List (List Char))
    (hc : c ≠ dotdot) : normStep rooted (c :: rest) dotdot = rest := by
  unfold normStep
  rw [if_neg (by decide), if_pos rfl, if_neg (by simp), if_neg (by simpa using hc)]
  rfl

theorem foldl_normStep_nilcomps (r : Bool) :
    ∀ (k : Nat) (acc : List (List Char)),
      (List.replicate k ([] : List Char)).foldl (normStep r) acc = acc := by
  intro k
  induction k with
  | zero => intro acc; rfl
  | succ n ih =>
    intro acc
    simp only [List.replicate_succ, List.foldl_cons, normStep_nil_comp]
    exact ih acc

theorem foldl_normStep_good :
    ∀ (comps : List (List Char)) (r : Bool) (acc : List (List Char)),
      (∀ x ∈ comps, x ≠ [] ∧ x ≠ ['.'] ∧ x ≠ dotdot) →
      comps.foldl (normStep r) acc = comps.reverse ++ acc := by
  intro comps
  induction comps with
  | nil => intro r acc _; simp
  | cons x t ih =>
    intro r acc h
    have hx := h x (List.mem_cons_self x t)
    simp only [List.foldl_cons, normStep_good r acc x hx.1 hx.2.1 hx.2.2]
    rw [ih r (x :: acc) (fun z hz => h z (List.mem_cons_of_mem x hz))]
    simp

theorem normStep_dd_replicate (j : Nat) :
    normStep false (List.replicate j dotdot) dotdot = List.replicate (j + 1) dotdot := by
  cases j with
  | zero =>
    rw [List.replicate_zero, normStep_eq_dd_nil]
    rfl
  | succ n =>
    rw [List.replicate_succ, normStep_eq_dd_cons_dd]
    rfl

theorem foldl_normStep_dd :
    ∀ (i j : Nat),
      (List.replicate i dotdot).foldl (normStep false) (List.replicate j dotdot) =
        List.replicate (i + j) dotdot := by
  intro i
  induction i with
  | zero => intro j; simp
  | succ n ih =>
    intro j
    rw [List.replicate_succ, List.foldl_cons, normStep_dd_replicate, ih (j + 1)]
    congr 1
    omega

theorem ddSuffix_of_all_dd : ∀ l : List (List Char), (∀ x ∈ l, x = dotdot) → ddSuffix l := by
  intro l
  induction l with
  | nil => intro; trivial
  | cons c t ih =>
    intro h
    exact ⟨fun _ => fun x hx => h x (List.mem_cons_of_mem c hx),
      ih (fun x hx => h x (List.mem_cons_of_mem c hx))⟩

theorem ddSuffix_decomp :
    ∀ l : List (List Char), ddSuffix l →
      ∃ rest m, l = rest ++ List.replicate m dotdot ∧ ∀ x ∈ rest, x ≠ dotdot := by
  intro l
  induction l with
  | nil => intro; exact ⟨[], 0, rfl, by simp⟩
  | cons c t ih =>
    intro h
    by_cases hc : c = dotdot
    · subst hc
      have hall : ∀ x ∈ t, x = dotdot := ((ddSuffix_cons _ _).mp h).1 rfl
      refine ⟨[], t.length + 1, ?_, by simp⟩
      simp only [List.nil_append, List.replicate_succ]
      congr 1
      exact List.eq_replicate_of_mem hall
    · obtain ⟨rest, m, ht, hr⟩ := ih ((ddSuffix_cons _ _).mp h).2
      refine ⟨c :: rest, m, by rw [ht]; rfl, ?_⟩
      intro x hx
      rcases List.mem_cons.mp hx with h1 | h1
      · subst h1; exact hc
      · exact hr x h1

theorem accOk_nil (rooted : Bool) : AccOk rooted [] := by
  refine ⟨by simp, by simp, fun _ => ?_⟩
  trivial

theorem goodComp_dotdot : GoodComp dotdot := by
  refine ⟨by simp [dotdot], by simp [dotdot], ?_⟩
  decide

theorem accOk_normStep (rooted : Bool) (acc : List (List Char)) (comp : List Char)
    (hacc : AccOk rooted acc) (hns : ∀ c ∈ comp, c ≠ '/') :
    AccOk rooted (normStep rooted acc comp) := by
  by_cases h1 : comp = [] ∨ comp = ['.']
  · have heq : normStep rooted acc comp = acc := by
      unfold normStep
      rw [if_pos h1]
    rw [heq]
    exact hacc
  by_cases h2 : comp = dotdot
  · subst h2
    cases acc with
    | nil =>
      rw [normStep_eq_dd_nil]
      cases rooted with
      | true =>
        rw [if_pos rfl]
        exact accOk_nil true
      | false =>
        rw [if_neg (by simp)]
        refine ⟨?_, by simp, fun _ => ?_⟩
        · intro x hx
          have hx1 : x = dotdot := List.mem_singleton.mp hx
          subst hx1
          exact goodComp_dotdot
        · exact (ddSuffix_cons _ _).mpr ⟨fun _ x hx => absurd hx (List.not_mem_nil x), ddSuffix_nil⟩
    | cons c rest =>
      by_cases hc : c = dotdot
      · subst hc
        rw [normStep_eq_dd_cons_dd]
        cases rooted with
        | true =>
          exact absurd rfl (hacc.2.1 rfl dotdot (List.mem_cons_self dotdot rest))
        | false =>
          have hdd : ddSuffix (dotdot :: rest) := hacc.2.2 rfl
          have hall : ∀ x ∈ rest, x = dotdot := ((ddSuffix_cons _ _).mp hdd).1 rfl
          refine ⟨?_, by simp, fun _ => ?_⟩
          · intro x hx
            rcases List.mem_cons.mp hx with h | h
            · subst h; exact goodComp_dotdot
            · exact hacc.1 x h
          · refine (ddSuffix_cons _ _).mpr ⟨fun _ => ?_, hdd⟩
            intro x hx
            rcases List.mem_cons.mp hx with h | h
            · subst h; rfl
            · exact hall x h
      · rw [normStep_eq_dd_cons_nondd rooted c rest hc]
        exact ⟨fun x hx => hacc.1 x (List.mem_cons_of_mem c hx),
          fun hr x hx => hacc.2.1 hr x (List.mem_cons_of_mem c hx),
          fun hr => ((ddSuffix_cons _ _).mp (hacc.2.2 hr)).2⟩
  · push_neg at h1
    rw [normStep_good rooted acc comp h1.1 h1.2 h2]
    refine ⟨?_, ?_, ?_⟩
    · intro x hx
      rcases List.mem_cons.mp hx with h | h
      · subst h; exact ⟨h1.1, h1.2, hns⟩
      · exact hacc.1 x h
    · intro hr x hx
      rcases List.mem_cons.mp hx with h | h
      · subst h; exact h2
      · exact hacc.2.1 hr x h
    · intro hr
      exact (ddSuffix_cons _ _).mpr ⟨fun hdd => absurd hdd h2, hacc.2.2 hr⟩

theorem accOk_foldl :
    ∀ (comps : List (List Char)) (rooted : Bool) (acc : List (List Char)),
      AccOk rooted acc → (∀ x ∈ comps, ∀ c ∈ x, c ≠ '/') →
      AccOk rooted (comps.foldl (normStep rooted) acc) := by
  intro comps
  induction comps with
  | nil => intro rooted acc h _; exact h
  | cons x t ih =>
    intro rooted acc h hns
    simp only [List.foldl_cons]
    exact ih rooted (normStep rooted acc x)
      (accOk_normStep rooted acc x h (hns x (List.mem_cons_self x t)))
      (fun z hz => hns z (List.mem_cons_of_mem x hz))

theorem refold_normStep (rooted : Bool) (acc : List (List Char)) (h : AccOk rooted acc) :
    (acc.reverse).foldl (normStep rooted) [] = acc := by
  cases rooted with
  | true =>
    rw [foldl_normStep_good acc.reverse true []]
    · simp
    · intro x hx
      rw [List.mem_reverse] at hx
      have hg := h.1 x hx
      exact ⟨hg.1, hg.2.1, h.2.1 rfl x hx⟩
  | false =>
    obtain ⟨rest, m, hdec, hr⟩ := ddSuffix_decomp acc (h.2.2 rfl)
    subst hdec
    rw [List.reverse_append, List.reverse_replicate, List.foldl_append]
    have h0 : (List.replicate m dotdot).foldl (normStep false) [] = List.replicate m dotdot := by
      have := foldl_normStep_dd m 0
      simpa using this
    rw [h0]
    rw [foldl_normStep_good rest.reverse false (List.replicate m dotdot)]
    · simp
    · intro x hx
      rw [List.mem_reverse] at hx
      have hg := h.1 x (List.mem_append_left _ hx)
      exact ⟨hg.1, hg.2.1, hr x hx⟩

theorem normComps_fixed (rooted : Bool) (nc : List (List Char))
    (h : AccOk rooted nc.reverse) : normComps rooted nc = nc := by
  rw [normComps]
  have hfold := refold_normStep rooted nc.reverse h
  rw [List.reverse_reverse] at hfold
  rw [hfold, List.reverse_reverse]

theorem joinSlash_cons_structure (x : List Char) (t : List (List Char)) :
    ∃ s, joinSlash (x :: t) = x ++ s := by
  cases t with
  | nil => exact ⟨[], by simp [joinSlash]⟩
  | cons y t' => exact ⟨'/' :: joinSlash (y :: t'), rfl⟩

theorem leadSlashes_cases (p : List Char) :
    leadSlashes p = 0 ∨ leadSlashes p = 1 ∨ leadSlashes p = 2 := by
  rw [leadSlashes]
  split
  · split
    · right; right; rfl
    · right; left; rfl
  · left; rfl

theorem leadSlashes_out (k : Nat) (hk : k ≤ 2) (c : Char) (hc : c ≠ '/') (r : List Char) :
    leadSlashes (List.replicate k '/' ++ c :: r) = k := by
  interval_cases k
  · simp [leadSlashes, hc]
  · simp [leadSlashes, List.replicate_succ, hc]
  · simp [leadSlashes, List.replicate_succ, hc]

theorem normpathL_eval (p : List Char) (hp : p ≠ []) :
    normpathL p =
      if (List.replicate (leadSlashes p) '/' ++
          joinSlash (normComps (leadSlashes p != 0) (splitSlash p))) = [] then ['.']
      else List.replicate (leadSlashes p) '/' ++
        joinSlash (normComps (leadSlashes p != 0) (splitSlash p)) := by
  rw [normpathL, if_neg hp]

theorem normpathL_fix (k : Nat) (nc : List (List Char)) (hk : k ≤ 2)
    (hAcc : AccOk (k != 0) nc.reverse)
    (hne : List.replicate k '/' ++ joinSlash nc ≠ []) :
    normpathL (List.replicate k '/' ++ joinSlash nc) = List.replicate k '/' ++ joinSlash nc := by
  cases nc with
  | nil =>
    have hj : joinSlash ([] : List (List Char)) = [] := rfl
    rw [hj] at hne ⊢
    interval_cases k
    · simp at hne
    · decide
    · decide
  | cons x t =>
    have hgood : ∀ y ∈ x :: t, GoodComp y := by
      intro y hy
      exact hAcc.1 y (List.mem_reverse.mpr hy)
    have hgx := hgood x (List.mem_cons_self x t)
    rcases hx : x with _ | ⟨c, x'⟩
    · exact absurd hx hgx.1
    subst hx
    have hc : c ≠ '/' := hgx.2.2 c (List.mem_cons_self c x')
    obtain ⟨s, hjs⟩ := joinSlash_cons_structure (c :: x') t
    rw [normpathL_eval _ hne]
    have hlead : leadSlashes (List.replicate k '/' ++ joinSlash ((c :: x') :: t)) = k := by
      rw [hjs, List.cons_append]
      exact leadSlashes_out k hk c hc (x' ++ s)
    have hsplit : splitSlash (List.replicate k '/' ++ joinSlash ((c :: x') :: t)) =
        List.replicate k [] ++ ((c :: x') :: t) := by
      rw [splitSlash_replicate_append]
      rw [splitSlash_joinSlash ((c :: x') :: t) (by simp)
        (fun y hy => (hgood y hy).2.2)]
    rw [hlead, hsplit]
    have hfold : normComps (k != 0) (List.replicate k [] ++ ((c :: x') :: t)) =
        (c :: x') :: t := by
      rw [normComps, List.foldl_append, foldl_normStep_nilcomps]
      have hre := refold_normStep (k != 0) ((c :: x') :: t).reverse hAcc
      rw [List.reverse_reverse] at hre
      rw [hre]
      exact List.reverse_reverse _
    rw [hfold, if_neg hne]

theorem normpathL_idem (p : List Char) : normpathL (normpathL p) = normpathL p := by
  by_cases hp : p = []
  · subst hp; decide
  have hk2 : leadSlashes p ≤ 2 := by
    rcases leadSlashes_cases p with h | h | h <;> omega
  have hAccRev : AccOk (leadSlashes p != 0)
      (normComps (leadSlashes p != 0) (splitSlash p)).reverse := by
    rw [normComps, List.reverse_reverse]
    exact accOk_foldl (splitSlash p) (leadSlashes p != 0) [] (accOk_nil _)
      (fun x hx => mem_splitSlash_no_slash p x hx)
  rw [normpathL_eval p hp]
  by_cases hout : (List.replicate (leadSlashes p) '/' ++
      joinSlash (normComps (leadSlashes p != 0) (splitSlash p))) = []
  · rw [if_pos hout]
    decide
  · rw [if_neg hout]
    exact normpathL_fix (leadSlashes p) (normComps (leadSlashes p != 0) (splitSlash p))
      hk2 hAccRev hout

theorem normpathL_ne_nil (p : List Char) : normpathL p ≠ [] := by
  by_cases hp : p = []
  · subst hp; decide
  · rw [normpathL_eval p hp]
    split
    · simp
    · assumption

theorem isabsL_cons_iff (c : Char) (t : List Char) : isabsL (c :: t) = true ↔ c = '/' := by
  simp [isabsL, List.take]

theorem isabsL_nil : isabsL [] = false := by decide

theorem isabsL_append_of_cons (t l : List Char) : isabsL (('/' :: t) ++ l) = true := by
  rw [List.cons_append, isabsL_cons_iff]

theorem exists_cons_of_isabsL (p : List Char) (h : isabsL p = true) : ∃ t, p = '/' :: t := by
  cases p with
  | nil => rw [isabsL_nil] at h; cases h
  | cons c t =>
    rw [isabsL_cons_iff] at h
    exact ⟨t, by rw [h]⟩

theorem leadSlashes_pos_of_isabs (p : List Char) (h : isabsL p = true) : 1 ≤ leadSlashes p := by
  obtain ⟨t, ht⟩ := exists_cons_of_isabsL p h
  subst ht
  rw [leadSlashes, if_pos (by simp [List.take])]
  split
  · omega
  · omega

theorem isabsL_replicate_append (k : Nat) (hk : 1 ≤ k) (l : List Char) :
    isabsL (List.replicate k '/' ++ l) = true := by
  cases k with
  | zero => omega
  | succ n =>
    rw [List.replicate_succ]
    exact isabsL_append_of_cons _ _

theorem isabs_normpathL (p : List Char) (h : isabsL p = true) : isabsL (normpathL p) = true := by
  have hp : p ≠ [] := by
    intro hcon
    subst hcon
    rw [isabsL_nil] at h
    cases h
  rw [normpathL_eval p hp]
  have hk := leadSlashes_pos_of_isabs p h
  have hne : List.replicate (leadSlashes p) '/' ++
      joinSlash (normComps (leadSlashes p != 0) (splitSlash p)) ≠ [] := by
    obtain ⟨n, hn⟩ : ∃ n, leadSlashes p = n + 1 := ⟨leadSlashes p - 1, by omega⟩
    rw [hn, List.replicate_succ]
    simp
  rw [if_neg hne]
  exact isabsL_replicate_append _ hk _

theorem abspathL_of_abs (cwd q : List Char) (h : isabsL q = true) :
    abspathL cwd q = normpathL q := by
  rw [abspathL, if_pos h]

theorem abspathL_of_rel (cwd q : List Char) (h : ¬ isabsL q = true) :
    abspathL cwd q = normpathL (joinL cwd q) := by
  rw [abspathL, if_neg h]

theorem isabs_joinL (cwd p : List Char) (hcwd : isabsL cwd = true) :
    isabsL (joinL cwd p) = true := by
  obtain ⟨t, ht⟩ := exists_cons_of_isabsL cwd hcwd
  rw [joinL]
  split
  · assumption
  · split
    · subst ht
      exact isabsL_append_of_cons _ _
    · subst ht
      exact isabsL_append_of_cons _ _

theorem isabs_abspathL (cwd p : List Char) (hcwd : isabsL cwd = true) :
    isabsL (abspathL cwd p) = true := by
  by_cases hp : isabsL p = true
  · rw [abspathL_of_abs cwd p hp]
    exact isabs_normpathL p hp
  · rw [abspathL_of_rel cwd p hp]
    exact isabs_normpathL _ (isabs_joinL cwd p hcwd)

theorem abspathL_ne_nil (cwd p : List Char) : abspathL cwd p ≠ [] := by
  rw [abspathL]
  split
  · exact normpathL_ne_nil _
  · exact normpathL_ne_nil _

theorem abspathL_idem (cwd p : List Char) (hcwd : isabsL cwd = true) :
    abspathL cwd (abspathL cwd p) = abspathL cwd p := by
  have habs : isabsL (abspathL cwd p) = true := isabs_abspathL cwd p hcwd
  rw [abspathL_of_abs cwd _ habs]
  by_cases hp : isabsL p = true
  · rw [abspathL_of_abs cwd p hp, normpathL_idem]
  · rw [abspathL_of_rel cwd p hp, normpathL_idem]

theorem to_abs_path_ne_empty (cwd p : String) (hp : p ≠ "") : to_abs_path cwd p ≠ "" := by
  rw [to_abs_path, if_neg hp]
  intro hcon
  exact abspathL_ne_nil cwd.data p.data (congrArg String.data hcon)

theorem to_abs_path_idem (cwd p : String) (hcwd : isabsL cwd.data = true) :
    to_abs_path cwd (to_abs_path cwd p) = to_abs_path cwd p := by
  by_cases hp : p = ""
  · subst hp
    rfl
  · have hq : to_abs_path cwd p = ⟨abspathL cwd.data p.data⟩ := by
      rw [to_abs_path, if_neg hp]
    have hqne : to_abs_path cwd p ≠ "" := to_abs_path_ne_empty cwd p hp
    rw [to_abs_path, if_neg hqne, hq]
    exact congrArg String.mk (abspathL_idem cwd.data p.data hcwd)

theorem ensure_loaded_noop (cwd : String) (env : ReloadEnv) (csv_path : String)
    (st : ScriptState) (h1 : csv_path ≠ "") (h2 : st.loaded_csv_path = csv_path) :
    ensure_seen_paths cwd env csv_path st = st := by
  rw [ensure_seen_paths, if_neg h1, if_pos h2]

theorem resolve_csv_path_configured (cfg : Settings) (rp : String) (h : cfg.csv_path ≠ "") :
    resolve_csv_path cfg rp = cfg.csv_path := by
  rw [resolve_csv_path, if_pos h]

theorem append_csv_row_eval (cwd : String) (cfg : Settings) (env : AppendEnv)
    (st : ScriptState) (led : Ledger) (e fp fn : String) (sz : Nat) (dur : Option Nat)
    (sha : String) (h1 : cfg.csv_path ≠ "") (h2 : st.loaded_csv_path = cfg.csv_path) :
    append_csv_row cwd cfg env st led e fp fn sz dur sha =
      (if normcase fp ∈ st.seen then (false, st, led)
       else if env.writeOk then
         (true, ⟨normcase fp :: st.seen, st.loaded_csv_path⟩,
           some ((led.getD []) ++ (if led = none ∨ led = some [] then [headerRow] else []) ++
             [ledgerRow e fp fn sz dur sha]))
       else (false, ⟨(normcase fp :: st.seen).filter (fun x => ¬ (x = normcase fp)),
         st.loaded_csv_path⟩, led)) := by
  simp only [append_csv_row]
  rw [resolve_csv_path_configured cfg fp h1]
  rw [if_neg h1]
  rw [ensure_loaded_noop cwd env.reload cfg.csv_path st h1 h2]

theorem rowKeyPred_headerRow (k : String) : rowKeyPred k headerRow = false := by
  simp [rowKeyPred]

theorem ledgerRow_getD_one (e fp fn : String) (sz : Nat) (dur : Option Nat) (sha : String) :
    (ledgerRow e fp fn sz dur sha).getD 1 "" = fp := rfl

theorem rowKeyPred_ledgerRow_ne (k e fp fn : String) (sz : Nat) (dur : Option Nat)
    (sha : String) (hk : normcase fp ≠ k) :
    rowKeyPred k (ledgerRow e fp fn sz dur sha) = false := by
  rw [rowKeyPred, decide_eq_false_iff_not]
  intro h
  exact hk h.2

theorem dataCount_write (led : Ledger) (e fp fn : String) (sz : Nat) (dur : Option Nat)
    (sha : String) (k : String) :
    dataCount (some ((led.getD []) ++
        (if led = none ∨ led = some [] then [headerRow] else []) ++
        [ledgerRow e fp fn sz dur sha])) k =
      dataCount led k +
        (if rowKeyPred k (ledgerRow e fp fn sz dur sha) = true then 1 else 0) := by
  rw [dataCount, Option.getD_some, List.countP_append, List.countP_append]
  have hhdr : (if led = none ∨ led = some [] then [headerRow]
      else ([] : List (List String))).countP (rowKeyPred k) = 0 := by
    split
    · simp [List.countP_cons, rowKeyPred_headerRow]
    · rfl
  have hrow : ([ledgerRow e fp fn sz dur sha] : List (List String)).countP (rowKeyPred k) =
      if rowKeyPred k (ledgerRow e fp fn sz dur sha) = true then 1 else 0 := by
    rw [List.countP_cons]
    simp
  rw [hhdr, hrow, dataCount]
  omega

theorem dataCount_zero_of_not_seen (st : ScriptState) (led : Ledger) (k : String)
    (hc : SeenCovers st led) (hk : k ∉ st.seen) : dataCount led k = 0 := by
  by_contra hne
  exact hk (hc k (by omega))

theorem doAppend_preserves (cwd : String) (cfg : Settings) (r : AppendReq)
    (st : ScriptState) (led : Ledger)
    (h1 : cfg.csv_path ≠ "") (h2 : st.loaded_csv_path = cfg.csv_path)
    (hc : SeenCovers st led) (ha : AtMostOnce led) :
    (doAppend cwd cfg (st, led) r).1.loaded_csv_path = cfg.csv_path ∧
    SeenCovers (doAppend cwd cfg (st, led) r).1 (doAppend cwd cfg (st, led) r).2 ∧
    AtMostOnce (doAppend cwd cfg (st, led) r).2 := by
  simp only [doAppend]
  rw [append_csv_row_eval cwd cfg r.env st led r.end_time_iso r.file_path r.file_name
    r.file_size_bytes r.duration_seconds r.sha256 h1 h2]
  by_cases hmem : normcase r.file_path ∈ st.seen
  · rw [if_pos hmem]
    exact ⟨h2, hc, ha⟩
  · rw [if_neg hmem]
    by_cases hw : r.env.writeOk = true
    · rw [if_pos hw]
      refine ⟨h2, ?_, ?_⟩
      · intro k hk
        by_cases hkn : k = normcase r.file_path
        · subst hkn
          exact List.mem_cons_self _ _
        · rw [dataCount_write] at hk
          rw [rowKeyPred_ledgerRow_ne k r.end_time_iso r.file_path r.file_name
            r.file_size_bytes r.duration_seconds r.sha256 (fun h => hkn h.symm)] at hk
          have hk2 : 1 ≤ dataCount led k := by
            simpa using hk
          exact List.mem_cons_of_mem _ (hc k hk2)
      · intro k
        rw [dataCount_write]
        by_cases hkn : k = normcase r.file_path
        · subst hkn
          have h0 : dataCount led (normcase r.file_path) = 0 :=
            dataCount_zero_of_not_seen st led _ hc hmem
          rw [h0]
          split
          · omega
          · omega
        · rw [rowKeyPred_ledgerRow_ne k r.end_time_iso r.file_path r.file_name
            r.file_size_bytes r.duration_seconds r.sha256 (fun h => hkn h.symm)]
          simpa using ha k
    · rw [if_neg hw]
      refine ⟨h2, ?_, ha⟩
      intro k hk
      have hkseen : k ∈ st.seen := hc k hk
      have hkn : k ≠ normcase r.file_path := by
        intro heq
        subst heq
        exact hmem hkseen
      have hfilter : k ∈ (normcase r.file_path :: st.seen).filter
          (fun x => ¬ (x = normcase r.file_path)) := by
        rw [List.mem_filter]
        exact ⟨List.mem_cons_of_mem _ hkseen, by simpa using hkn⟩
      exact hfilter

theorem runAppends_preserves (cwd : String) (cfg : Settings) :
    ∀ (reqs : List AppendReq) (st : ScriptState) (led : Ledger),
      cfg.csv_path ≠ "" → st.loaded_csv_path = cfg.csv_path → SeenCovers st led →
      AtMostOnce led → AtMostOnce (runAppends cwd cfg reqs st led).2 := by
  intro reqs
  induction reqs with
  | nil => intro st led _ _ _ ha; exact ha
  | cons r t ih =>
    intro st led h1 h2 hc ha
    obtain ⟨hl, hcov, hamo⟩ := doAppend_preserves cwd cfg r st led h1 h2 hc ha
    simp only [runAppends, List.foldl_cons]
    exact ih (doAppend cwd cfg (st, led) r).1 (doAppend cwd cfg (st, led) r).2 h1 hl hcov hamo
theorem waitStableGo_none (env : Nat → ProbeAttempt) :
    ∀ (k i : Nat), (∀ j, j < k → probeSuccess (env (i + j)) = none) →
      waitStableGo env i k = (false, 0) := by
  intro k
  induction k with
  | zero => intro i _; rfl
  | succ n ih =>
    intro i h
    have h0 : probeSuccess (env i) = none := by
      have := h 0 (by omega)
      simpa using this
    simp only [waitStableGo]
    rw [h0]
    refine ih (i + 1) ?_
    intro j hj
    have harith : i + 1 + j = i + (j + 1) := by omega
    rw [harith]
    exact h (j + 1) (by omega)

theorem waitStableGo_first (env : Nat → ProbeAttempt) :
    ∀ (k i j n : Nat), j < k → (∀ j2, j2 < j → probeSuccess (env (i + j2)) = none) →
      probeSuccess (env (i + j)) = some n → waitStableGo env i k = (true, n) := by
  intro k
  induction k with
  | zero => intro i j n hj _ _; exact absurd hj (by omega)
  | succ m ih =>
    intro i j n hj hpre hsucc
    cases j with
    | zero =>
      have h0 : probeSuccess (env i) = some n := by simpa using hsucc
      simp only [waitStableGo]
      rw [h0]
    | succ j2 =>
      have h0 : probeSuccess (env i) = none := by
        have := hpre 0 (by omega)
        simpa using this
      simp only [waitStableGo]
      rw [h0]
      refine ih (i + 1) j2 n (by omega) ?_ ?_
      · intro j3 hj3
        have harith : i + 1 + j3 = i + (j3 + 1) := by omega
        rw [harith]
        exact hpre (j3 + 1) (by omega)
      · have harith : i + 1 + j2 = i + (j2 + 1) := by omega
        rw [harith]
        exact hsucc

theorem hashRetryGo_none (env : Nat → HashAttempt) :
    ∀ (k i : Nat), (∀ j, j < k → hashSuccess (env (i + j)) = none) →
      hashRetryGo env i k = "" := by
  intro k
  induction k with
  | zero => intro i _; rfl
  | succ n ih =>
    intro i h
    have h0 : hashSuccess (env i) = none := by
      have := h 0 (by omega)
      simpa using this
    simp only [hashRetryGo]
    rw [h0]
    refine ih (i + 1) ?_
    intro j hj
    have harith : i + 1 + j = i + (j + 1) := by omega
    rw [harith]
    exact h (j + 1) (by omega)

theorem hashRetryGo_first (env : Nat → HashAttempt) :
    ∀ (k i j : Nat) (d : String), j < k → (∀ j2, j2 < j → hashSuccess (env (i + j2)) = none) →
      hashSuccess (env (i + j)) = some d → hashRetryGo env i k = d := by
  intro k
  induction k with
  | zero => intro i j d hj _ _; exact absurd hj (by omega)
  | succ m ih =>
    intro i j d hj hpre hsucc
    cases j with
    | zero =>
      have h0 : hashSuccess (env i) = some d := by simpa using hsucc
      simp only [hashRetryGo]
      rw [h0]
    | succ j2 =>
      have h0 : hashSuccess (env i) = none := by
        have := hpre 0 (by omega)
        simpa using this
      simp only [hashRetryGo]
      rw [h0]
      refine ih (i + 1) j2 d (by omega) ?_ ?_
      · intro j3 hj3
        have harith : i + 1 + j3 = i + (j3 + 1) := by omega
        rw [harith]
        exact hpre (j3 + 1) (by omega)
      · have harith : i + 1 + j2 = i + (j2 + 1) := by omega
        rw [harith]
        exact hsucc

theorem reload_loaded (cwd : String) (env : ReloadEnv) (P : String) (st : ScriptState) :
    (reload_seen_paths_from cwd env P st).loaded_csv_path = P := by
  rw [reload_seen_paths_from]
  split
  · rfl
  · split
    · rfl
    · rfl

/-- Claim C9: after any call to _reload_seen_paths_from for a path P — whether the
load succeeded, the file was missing, or the read failed — the cache records P as
its source, so every subsequent _ensure_seen_paths for P performs no further reload
(it returns the state unchanged); in particular a failed load is never retried for
the same path. -/
theorem c9_reload_pins_source (cwd : String) (env : ReloadEnv) (P : String)
    (st : ScriptState) (cwd2 : String) (env2 : ReloadEnv) :
    (reload_seen_paths_from cwd env P st).loaded_csv_path = P ∧
    ensure_seen_paths cwd2 env2 P (reload_seen_paths_from cwd env P st) =
      reload_seen_paths_from cwd env P st := by
  refine ⟨reload_loaded cwd env P st, ?_⟩
  rw [ensure_seen_paths]
  by_cases hP : P = ""
  · rw [if_pos hP]
  · rw [if_neg hP, if_pos (reload_loaded cwd env P st)]

/-- Claim C2: when a ledger append freshly inserts a normalized path but the file
write raises, the append reports failure and returns the shared state exactly as it
was before the call (the path is discarded from the seen set again), and a later
retry of the same arguments with a succeeding write reports success. -/
theorem c2_rollback_on_write_failure (cwd : String) (cfg : Settings) (env : AppendEnv)
    (st : ScriptState) (led : Ledger) (e fp fn : String) (sz : Nat) (dur : Option Nat)
    (sha : String) (h1 : cfg.csv_path ≠ "") (h2 : st.loaded_csv_path = cfg.csv_path)
    (h3 : normcase fp ∉ st.seen) (h4 : env.writeOk = false) :
    append_csv_row cwd cfg env st led e fp fn sz dur sha = (false, st, led) ∧
    ∀ env2 : AppendEnv, env2.writeOk = true →
      (append_csv_row cwd cfg env2 st led e fp fn sz dur sha).1 = true := by
  constructor
  · rw [append_csv_row_eval cwd cfg env st led e fp fn sz dur sha h1 h2]
    rw [if_neg h3, if_neg (by simp [h4])]
    have hfilter : (normcase fp :: st.seen).filter (fun x => ¬ (x = normcase fp)) = st.seen := by
      rw [List.filter_cons, if_neg (by simp)]
      rw [List.filter_eq_self]
      intro a ha
      simp only [decide_eq_true_eq]
      intro heq
      subst heq
      exact h3 ha
    rw [hfilter]
  · intro env2 hw
    rw [append_csv_row_eval cwd cfg env2 st led e fp fn sz dur sha h1 h2]
    rw [if_neg h3, if_pos hw]

/-- Claim C2 witness: a concrete failed append leaves the state untouched and a
concrete retry with a working write succeeds. -/
theorem c2_rollback_on_write_failure_witness :
    append_csv_row "/w" ⟨"", "/l/h.csv", ",", 3, 0⟩ ⟨⟨true, true, [], none⟩, false⟩
      ⟨[], "/l/h.csv"⟩ none "t" "/r/a.mkv" "a.mkv" 7 none "d" =
      (false, ⟨[], "/l/h.csv"⟩, none) ∧
    (append_csv_row "/w" ⟨"", "/l/h.csv", ",", 3, 0⟩ ⟨⟨true, true, [], none⟩, true⟩
      ⟨[], "/l/h.csv"⟩ none "t" "/r/a.mkv" "a.mkv" 7 none "d").1 = true :=
  ⟨(c2_rollback_on_write_failure "/w" ⟨"", "/l/h.csv", ",", 3, 0⟩
      ⟨⟨true, true, [], none⟩, false⟩ ⟨[], "/l/h.csv"⟩ none "t" "/r/a.mkv" "a.mkv" 7 none "d"
      (by decide) rfl (by decide) rfl).1,
   (c2_rollback_on_write_failure "/w" ⟨"", "/l/h.csv", ",", 3, 0⟩
      ⟨⟨true, true, [], none⟩, false⟩ ⟨[], "/l/h.csv"⟩ none "t" "/r/a.mkv" "a.mkv" 7 none "d"
      (by decide) rfl (by decide) rfl).2 ⟨⟨true, true, [], none⟩, true⟩ rfl⟩

/-- Claim C5: an append to a nonexistent or zero-size ledger file writes the
six-column header row exactly once, before the data row; an append to a ledger with
existing content writes only the data row and never rewrites the header. -/
theorem c5_header_emission (cwd : String) (cfg : Settings) (env : AppendEnv)
    (st : ScriptState) (led : Ledger) (e fp fn : String) (sz : Nat) (dur : Option Nat)
    (sha : String) (h1 : cfg.csv_path ≠ "") (h2 : st.loaded_csv_path = cfg.csv_path)
    (h3 : normcase fp ∉ st.seen) (h4 : env.writeOk = true) :
    headerRow.length = 6 ∧
    (led = none ∨ led = some [] →
      (append_csv_row cwd cfg env st led e fp fn sz dur sha).2.2 =
        some [headerRow, ledgerRow e fp fn sz dur sha]) ∧
    (∀ rs, led = some rs → rs ≠ [] →
      (append_csv_row cwd cfg env st led e fp fn sz dur sha).2.2 =
        some (rs ++ [ledgerRow e fp fn sz dur sha])) := by
  refine ⟨rfl, ?_, ?_⟩
  · intro hnew
    rw [append_csv_row_eval cwd cfg env st led e fp fn sz dur sha h1 h2]
    rw [if_neg h3, if_pos h4]
    rcases hnew with h | h
    · subst h; simp
    · subst h; simp
  · intro rs hrs hne
    rw [append_csv_row_eval cwd cfg env st led e fp fn sz dur sha h1 h2]
    rw [if_neg h3, if_pos h4]
    subst hrs
    have hcond : ¬ ((some rs : Ledger) = none ∨ (some rs : Ledger) = some []) := by
      rintro (h | h)
      · cases h
      · exact hne (by injection h)
    rw [if_neg hcond]
    simp

/-- Claim C5 witness: a concrete append to a missing file yields header plus data
row; a concrete append to a nonempty file appends only the data row. -/
theorem c5_header_emission_witness :
    (append_csv_row "/w" ⟨"", "/l/h.csv", ",", 3, 0⟩ ⟨⟨true, true, [], none⟩, true⟩
      ⟨[], "/l/h.csv"⟩ none "t" "/r/a.mkv" "a.mkv" 7 none "d").2.2 =
      some [headerRow, ledgerRow "t" "/r/a.mkv" "a.mkv" 7 none "d"] ∧
    (append_csv_row "/w" ⟨"", "/l/h.csv", ",", 3, 0⟩ ⟨⟨true, true, [], none⟩, true⟩
      ⟨[], "/l/h.csv"⟩ (some [headerRow]) "t" "/r/a.mkv" "a.mkv" 7 none "d").2.2 =
      some ([headerRow] ++ [ledgerRow "t" "/r/a.mkv" "a.mkv" 7 none "d"]) :=
  ⟨(c5_header_emission "/w" ⟨"", "/l/h.csv", ",", 3, 0⟩ ⟨⟨true, true, [], none⟩, true⟩
      ⟨[], "/l/h.csv"⟩ none "t" "/r/a.mkv" "a.mkv" 7 none "d"
      (by decide) rfl (by decide) rfl).2.1 (Or.inl rfl),
   (c5_header_emission "/w" ⟨"", "/l/h.csv", ",", 3, 0⟩ ⟨⟨true, true, [], none⟩, true⟩
      ⟨[], "/l/h.csv"⟩ (some [headerRow]) "t" "/r/a.mkv" "a.mkv" 7 none "d"
      (by decide) rfl (by decide) rfl).2.2 [headerRow] rfl (by decide)⟩

/-- Claim C6 counterexample: a reload whose row iteration raises after one
successfully read data row does not leave the cache empty — the already inserted
path survives, contradicting the claim that any reload failure leaves the cache
empty. -/
theorem c6_reload_empty_cex :
    (reload_seen_paths_from "/w"
      ⟨true, true, [["t", "/a/b.mkv", "b.mkv", "1", "", "x"]], some 1⟩
      "/l/h.csv" ⟨["old"], "/z.csv"⟩).seen ≠ [] := by decide

/-- Claim C6 amended: reload failures are absorbed without an exception escaping:
an open failure leaves the cache empty, and a row-iteration failure after k rows
behaves exactly like a successful reload of the file's first k rows — in every case
the pre-call cache content is cleared and the source path recorded, failing open
toward re-processing rather than crashing. -/
theorem c6_reload_failure_amended (cwd : String) (env : ReloadEnv) (P : String)
    (st : ScriptState) :
    (env.openOk = false → (reload_seen_paths_from cwd env P st).seen = []) ∧
    (∀ k, env.failAfter = some k →
      reload_seen_paths_from cwd env P st =
        reload_seen_paths_from cwd ⟨env.fileExists, env.openOk, env.rows.take k, none⟩ P st) := by
  constructor
  · intro hopen
    rw [reload_seen_paths_from]
    by_cases hP : P = "" ∨ env.fileExists = false
    · rw [if_pos hP]
    · rw [if_neg hP, if_pos hopen]
  · intro k hk
    simp only [reload_seen_paths_from, consumedRows, hk]

/-- Claim C6 amended witness: a concrete failed open leaves the cache empty; a
concrete mid-iteration failure after one row equals the successful reload of that
one row. -/
theorem c6_reload_failure_amended_witness :
    ((reload_seen_paths_from "/w" ⟨true, false, [], none⟩ "/l.csv" ⟨["s"], "q"⟩).seen = []) ∧
    (reload_seen_paths_from "/w"
        ⟨true, true, [["t", "/a", ""], ["u", "/b", ""]], some 1⟩ "/l.csv" ⟨["s"], "q"⟩ =
      reload_seen_paths_from "/w"
        ⟨true, true, [["t", "/a", ""], ["u", "/b", ""]].take 1, none⟩ "/l.csv" ⟨["s"], "q"⟩) :=
  ⟨(c6_reload_failure_amended "/w" ⟨true, false, [], none⟩ "/l.csv" ⟨["s"], "q"⟩).1 rfl,
   (c6_reload_failure_amended "/w" ⟨true, true, [["t", "/a", ""], ["u", "/b", ""]], some 1⟩
      "/l.csv" ⟨["s"], "q"⟩).2 1 rfl⟩

/-- Claim C7 counterexample: applying a configuration whose cleaned ledger path is
empty performs no reload at all — the seen cache and its recorded source survive
unchanged, contradicting the claim that every configuration application clears and
repopulates the cache. -/
theorem c7_config_reload_cex :
    (script_update ⟨"/w", "/home/u", fun _ => none⟩ ⟨true, true, [], none⟩
      ⟨"", "", ",", 5, 400⟩ ⟨["x"], "/old.csv"⟩).2.seen = ["x"] ∧
    (script_update ⟨"/w", "/home/u", fun _ => none⟩ ⟨true, true, [], none⟩
      ⟨"", "", ",", 5, 400⟩ ⟨["x"], "/old.csv"⟩).2.loaded_csv_path = "/old.csv" := by
  constructor
  · rfl
  · rfl

/-- Claim C7 amended: whenever the cleaned configured ledger path is nonempty,
applying configuration immediately clears and repopulates the seen cache by a reload
from that (possibly new) path, records it as the cache source, and stores it in the
settings; when the cleaned path is empty no reload happens. -/
theorem c7_config_reload_amended (os : OsEnv) (env : ReloadEnv) (raw : RawSettings)
    (st : ScriptState) (h : clean_path os raw.csv_path ≠ "") :
    (script_update os env raw st).2 =
      reload_seen_paths_from os.cwd env (clean_path os raw.csv_path) st ∧
    (script_update os env raw st).2.loaded_csv_path = clean_path os raw.csv_path ∧
    (script_update os env raw st).1.csv_path = clean_path os raw.csv_path := by
  simp only [script_update]
  rw [if_pos h]
  exact ⟨rfl, reload_loaded os.cwd env (clean_path os raw.csv_path) st, rfl⟩

/-- Claim C7 amended witness: a concrete configuration with a nonempty ledger path
reloads the cache from it. -/
theorem c7_config_reload_amended_witness :
    (script_update ⟨"/w", "/h", fun _ => none⟩ ⟨false, true, [], none⟩
        ⟨"", "/l/h.csv", ",", 5, 400⟩ ⟨["x"], "/old.csv"⟩).2 =
      reload_seen_paths_from "/w" ⟨false, true, [], none⟩
        (clean_path ⟨"/w", "/h", fun _ => none⟩ "/l/h.csv") ⟨["x"], "/old.csv"⟩ :=
  (c7_config_reload_amended ⟨"/w", "/h", fun _ => none⟩ ⟨false, true, [], none⟩
    ⟨"", "/l/h.csv", ",", 5, 400⟩ ⟨["x"], "/old.csv"⟩ (by decide)).1

/-- Claim C10 counterexample: for the trigger path "/a " (trailing blank) the ledger
cell written is its absolute form "/a ", and the load-time normalization strips the
blank before re-absolutizing, so the loaded key differs from the key used by the
dedupe checks for the same path — the previously written row is not recognized. -/
theorem c10_load_normalization_cex :
    loadNormalize "/w" (to_abs_path "/w" "/a ") ≠ processNormalize "/w" "/a " := by decide

/-- Claim C10 amended: both the row loader and the processing pipeline apply
os.path.normcase after _to_abs_path, but the loader first strips surrounding
whitespace from the cell; for every path whose absolute form is unchanged by
stripping (no leading or trailing whitespace) the loaded key of the written cell
equals the processing key, so such a row is recognized as a duplicate regardless of
relative or absolute spelling, in the POSIX model where normcase is the identity. -/
theorem c10_load_normalization_amended (cwd p : String) (hcwd : isabsL cwd.data = true)
    (hws : pstrip (to_abs_path cwd p) = to_abs_path cwd p) :
    loadNormalize cwd (to_abs_path cwd p) = processNormalize cwd p := by
  rw [loadNormalize, processNormalize, hws, to_abs_path_idem cwd p hcwd]

/-- Claim C10 amended witness: a concrete relative spelling round-trips to the same
dedupe key. -/
theorem c10_load_normalization_amended_witness :
    loadNormalize "/w" (to_abs_path "/w" "rec/../video.mkv") =
      processNormalize "/w" "rec/../video.mkv" :=
  c10_load_normalization_amended "/w" "rec/../video.mkv" (by decide) (by decide)

/-- Helper for the probe characterization: success of one stability attempt means
the file exists and both size reads returned the same positive size. -/
theorem probeSuccess_iff (a : ProbeAttempt) (n : Nat) :
    probeSuccess a = some n ↔
      a.fexists = true ∧ a.size1 = some n ∧ a.size2 = some n ∧ 0 < n := by
  obtain ⟨fe, s1, s2⟩ := a
  cases fe with
  | false =>
    have hred : probeSuccess ⟨false, s1, s2⟩ = none := rfl
    rw [hred]
    simp
  | true =>
    cases s1 with
    | none =>
      have hred : probeSuccess ⟨true, none, s2⟩ = none := by
        cases s2 <;> rfl
      rw [hred]
      simp
    | some x =>
      cases s2 with
      | none =>
        have hred : probeSuccess ⟨true, some x, none⟩ = none := rfl
        rw [hred]
        simp
      | some y =>
        have hred : probeSuccess ⟨true, some x, some y⟩ =
            (if x = y ∧ 0 < y then some y else none) := rfl
        rw [hred]
        by_cases hxy : x = y ∧ 0 < y
        · rw [if_pos hxy]
          constructor
          · intro h
            have hyn : y = n := by injection h
            subst hyn
            exact ⟨rfl, by rw [hxy.1], rfl, hxy.2⟩
          · rintro ⟨-, -, h2, -⟩
            have hyn : y = n := by injection h2
            rw [hyn]
        · rw [if_neg hxy]
          constructor
          · intro h
            cases h
          · rintro ⟨-, h1, h2, h3⟩
            have hx : x = n := by injection h1
            have hy : y = n := by injection h2
            exact absurd ⟨by rw [hx, hy], by rw [hy]; exact h3⟩ hxy

/-- Helper for the C3 witness: an attempt whose two size reads differ by one never
succeeds. -/
theorem growing_probe_none (i : Nat) : probeSuccess ⟨true, some i, some (i + 1)⟩ = none := by
  have hred : probeSuccess ⟨true, some i, some (i + 1)⟩ =
      (if i = i + 1 ∧ 0 < i + 1 then some (i + 1) else none) := rfl
  rw [hred, if_neg (by omega)]

/-- Claim C3: an attempt of the stability prober succeeds exactly when the file
exists and two consecutive size reads agree on a positive size; the prober returns
stable with that size at the first succeeding attempt within the budget (so a static
non-empty file is stable within one check pair), and when no attempt within the
budget succeeds — missing file, OSError on a read, differing sizes, or zero size at
every attempt — it returns the failure outcome (false, 0) with no exception
escaping. -/
theorem c3_stability_prober :
    (∀ (a : ProbeAttempt) (n : Nat), probeSuccess a = some n ↔
      a.fexists = true ∧ a.size1 = some n ∧ a.size2 = some n ∧ 0 < n) ∧
    (∀ (env : Nat → ProbeAttempt) (R D j n : Nat), j < R →
      (∀ i, i < j → probeSuccess (env i) = none) → probeSuccess (env j) = some n →
      wait_for_stable_file env R D = (true, n)) ∧
    (∀ (env : Nat → ProbeAttempt) (R D : Nat),
      (∀ i, i < R → probeSuccess (env i) = none) →
      wait_for_stable_file env R D = (false, 0)) := by
  refine ⟨probeSuccess_iff, ?_, ?_⟩
  · intro env R D j n hj hpre hsucc
    rw [wait_for_stable_file]
    refine waitStableGo_first env R 0 j n hj ?_ ?_
    · intro j2 h
      have hz : (0 : Nat) + j2 = j2 := by omega
      rw [hz]
      exact hpre j2 h
    · have hz : (0 : Nat) + j = j := by omega
      rw [hz]
      exact hsucc
  · intro env R D h
    rw [wait_for_stable_file]
    refine waitStableGo_none env R 0 ?_
    intro j hj
    have hz : (0 : Nat) + j = j := by omega
    rw [hz]
    exact h j hj

/-- Claim C3 witness: a static non-empty file of size 5 is stable on the first
attempt of a budget of 3; a file whose size grows across every check pair exhausts
the budget and yields (false, 0). -/
theorem c3_stability_prober_witness :
    wait_for_stable_file (fun _ => ⟨true, some 5, some 5⟩) 3 400 = (true, 5) ∧
    wait_for_stable_file (fun i => ⟨true, some i, some (i + 1)⟩) 3 0 = (false, 0) :=
  ⟨c3_stability_prober.2.1 (fun _ => ⟨true, some 5, some 5⟩) 3 400 0 5 (by omega)
      (fun i h => absurd h (by omega)) (by decide),
   c3_stability_prober.2.2 (fun i => ⟨true, some i, some (i + 1)⟩) 3 0
      (fun i _ => growing_probe_none i)⟩

/-- Helper: a hash attempt carries no digest exactly when it raised an OSError or
any other exception — both are retried. -/
theorem hashSuccess_none_iff (a : HashAttempt) :
    hashSuccess a = none ↔ a = HashAttempt.osError ∨ a = HashAttempt.otherError := by
  cases a <;> simp [hashSuccess]

/-- Claim C4: the retrying hasher returns the digest of the first successful attempt
within the budget, retries attempts that raised an OSError or any other exception,
returns the empty string once the budget is exhausted instead of raising, and the
pipeline treats an empty digest as failure: when every hash attempt fails it aborts
the run with the shared state and ledger untouched, before the sidecar and ledger
stages. -/
theorem c4_hasher_retries_and_abort :
    (∀ a : HashAttempt, hashSuccess a = none ↔
      a = HashAttempt.osError ∨ a = HashAttempt.otherError) ∧
    (∀ (env : Nat → HashAttempt) (R D j : Nat) (d : String), j < R →
      (∀ i, i < j → hashSuccess (env i) = none) → hashSuccess (env j) = some d →
      hash_file_with_retries env R D = d) ∧
    (∀ (env : Nat → HashAttempt) (R D : Nat),
      (∀ i, i < R → hashSuccess (env i) = none) →
      hash_file_with_retries env R D = "") ∧
    (∀ (cwd : String) (cfg : Settings) (env : PipeEnv) (st : ScriptState) (led : Ledger)
      (path e : String) (dur : Option Nat),
      to_abs_path cwd path ≠ "" →
      normcase (to_abs_path cwd path) ∉ st.seen →
      (wait_for_stable_file env.probe cfg.retry_count cfg.retry_delay_ms).1 = true →
      (∀ i, i < cfg.retry_count → hashSuccess (env.hash i) = none) →
      process_recording cwd cfg env st led path e dur = ⟨st, led, false, false, false, ""⟩) := by
  refine ⟨hashSuccess_none_iff, ?_, ?_, ?_⟩
  · intro env R D j d hj hpre hsucc
    rw [hash_file_with_retries]
    refine hashRetryGo_first env R 0 j d hj ?_ ?_
    · intro j2 h
      have hz : (0 : Nat) + j2 = j2 := by omega
      rw [hz]
      exact hpre j2 h
    · have hz : (0 : Nat) + j = j := by omega
      rw [hz]
      exact hsucc
  · intro env R D h
    rw [hash_file_with_retries]
    refine hashRetryGo_none env R 0 ?_
    intro j hj
    have hz : (0 : Nat) + j = j := by omega
    rw [hz]
    exact h j hj
  · intro cwd cfg env st led path e dur habs hseen hstable hfail
    have hsha : hash_file_with_retries env.hash cfg.retry_count cfg.retry_delay_ms = "" := by
      rw [hash_file_with_retries]
      refine hashRetryGo_none env.hash cfg.retry_count 0 ?_
      intro j hj
      have hz : (0 : Nat) + j = j := by omega
      rw [hz]
      exact hfail j hj
    simp only [process_recording]
    rw [if_neg habs, if_neg hseen, if_neg (by rw [hstable]; simp), hsha, if_pos rfl]

/-- Claim C4 witness: a hasher succeeding on the second attempt returns that digest;
a hasher failing every attempt returns the empty string; a pipeline whose hash
attempts all raise aborts with nothing written and no sidecar or ledger call. -/
theorem c4_hasher_retries_and_abort_witness :
    hash_file_with_retries (fun i => if i = 1 then .success "d" else .osError) 3 0 = "d" ∧
    hash_file_with_retries (fun _ => .otherError) 3 0 = "" ∧
    process_recording "/w" ⟨"", "/l/h.csv", ",", 3, 0⟩
      ⟨fun _ => ⟨true, some 5, some 5⟩, fun _ => .osError, true, true, true, true,
        ⟨⟨true, true, [], none⟩, true⟩⟩
      ⟨[], "/l/h.csv"⟩ none "/r/a.mkv" "t" none =
      ⟨⟨[], "/l/h.csv"⟩, none, false, false, false, ""⟩ :=
  ⟨c4_hasher_retries_and_abort.2.1 (fun i => if i = 1 then .success "d" else .osError) 3 0 1 "d"
      (by omega) (fun i h => by
        have hi : i = 0 := by omega
        subst hi
        rfl) rfl,
   c4_hasher_retries_and_abort.2.2.1 (fun _ => .otherError) 3 0 (fun i _ => rfl),
   c4_hasher_retries_and_abort.2.2.2 "/w" ⟨"", "/l/h.csv", ",", 3, 0⟩
      ⟨fun _ => ⟨true, some 5, some 5⟩, fun _ => .osError, true, true, true, true,
        ⟨⟨true, true, [], none⟩, true⟩⟩
      ⟨[], "/l/h.csv"⟩ none "/r/a.mkv" "t" none
      (by decide) (by decide) (by decide) (fun i _ => rfl)⟩

/-- Claim C8: whenever a run reaches the sidecar stage (path resolved, not an
advisory duplicate, stability and hashing succeeded, output directory resolved),
the sidecar outcome is only recorded as a boolean and the ledger append is executed
regardless, with exactly the digest the hasher produced; the resulting state and
ledger are those of the append, independent of the sidecar outcome. -/
theorem c8_sidecar_failure_nonfatal (cwd : String) (cfg : Settings) (env : PipeEnv)
    (st : ScriptState) (led : Ledger) (path e : String) (dur : Option Nat)
    (habs : to_abs_path cwd path ≠ "")
    (hseen : normcase (to_abs_path cwd path) ∉ st.seen)
    (hstable : (wait_for_stable_file env.probe cfg.retry_count cfg.retry_delay_ms).1 = true)
    (hsha : hash_file_with_retries env.hash cfg.retry_count cfg.retry_delay_ms ≠ "")
    (hdir : resolve_hash_output_dir cfg env (to_abs_path cwd path) ≠ "") :
    (process_recording cwd cfg env st led path e dur).ledgerCalled = true ∧
    (process_recording cwd cfg env st led path e dur).ledgerDigest =
      hash_file_with_retries env.hash cfg.retry_count cfg.retry_delay_ms ∧
    (process_recording cwd cfg env st led path e dur).sidecarCalled = true ∧
    (process_recording cwd cfg env st led path e dur).sidecarReported = env.sidecarOk ∧
    (process_recording cwd cfg env st led path e dur).st =
      (append_csv_row cwd cfg env.append st led e (to_abs_path cwd path)
        (basename (to_abs_path cwd path))
        (wait_for_stable_file env.probe cfg.retry_count cfg.retry_delay_ms).2 dur
        (hash_file_with_retries env.hash cfg.retry_count cfg.retry_delay_ms)).2.1 ∧
    (process_recording cwd cfg env st led path e dur).led =
      (append_csv_row cwd cfg env.append st led e (to_abs_path cwd path)
        (basename (to_abs_path cwd path))
        (wait_for_stable_file env.probe cfg.retry_count cfg.retry_delay_ms).2 dur
        (hash_file_with_retries env.hash cfg.retry_count cfg.retry_delay_ms)).2.2 := by
  have hres : process_recording cwd cfg env st led path e dur =
      ⟨(append_csv_row cwd cfg env.append st led e (to_abs_path cwd path)
          (basename (to_abs_path cwd path))
          (wait_for_stable_file env.probe cfg.retry_count cfg.retry_delay_ms).2 dur
          (hash_file_with_retries env.hash cfg.retry_count cfg.retry_delay_ms)).2.1,
        (append_csv_row cwd cfg env.append st led e (to_abs_path cwd path)
          (basename (to_abs_path cwd path))
          (wait_for_stable_file env.probe cfg.retry_count cfg.retry_delay_ms).2 dur
          (hash_file_with_retries env.hash cfg.retry_count cfg.retry_delay_ms)).2.2,
        true, env.sidecarOk, true,
        hash_file_with_retries env.hash cfg.retry_count cfg.retry_delay_ms⟩ := by
    simp only [process_recording]
    rw [if_neg habs, if_neg hseen, if_neg (by rw [hstable]; simp), if_neg hsha, if_neg hdir]
  rw [hres]
  exact ⟨rfl, rfl, rfl, rfl, rfl, rfl⟩

/-- Claim C8 witness: a concrete run with a failing sidecar still calls the ledger
append with the produced digest and reports the sidecar failure as a boolean. -/
theorem c8_sidecar_failure_nonfatal_witness :
    (process_recording "/w" ⟨"/out", "/l/h.csv", ",", 3, 0⟩
      ⟨fun _ => ⟨true, some 5, some 5⟩, fun _ => .success "d", true, true, true, false,
        ⟨⟨true, true, [], none⟩, true⟩⟩
      ⟨[], "/l/h.csv"⟩ none "/r/a.mkv" "t" none).ledgerCalled = true ∧
    (process_recording "/w" ⟨"/out", "/l/h.csv", ",", 3, 0⟩
      ⟨fun _ => ⟨true, some 5, some 5⟩, fun _ => .success "d", true, true, true, false,
        ⟨⟨true, true, [], none⟩, true⟩⟩
      ⟨[], "/l/h.csv"⟩ none "/r/a.mkv" "t" none).ledgerDigest = "d" ∧
    (process_recording "/w" ⟨"/out", "/l/h.csv", ",", 3, 0⟩
      ⟨fun _ => ⟨true, some 5, some 5⟩, fun _ => .success "d", true, true, true, false,
        ⟨⟨true, true, [], none⟩, true⟩⟩
      ⟨[], "/l/h.csv"⟩ none "/r/a.mkv" "t" none).sidecarReported = false :=
  ⟨(c8_sidecar_failure_nonfatal "/w" ⟨"/out", "/l/h.csv", ",", 3, 0⟩
      ⟨fun _ => ⟨true, some 5, some 5⟩, fun _ => .success "d", true, true, true, false,
        ⟨⟨true, true, [], none⟩, true⟩⟩
      ⟨[], "/l/h.csv"⟩ none "/r/a.mkv" "t" none
      (by decide) (by decide) (by decide) (by decide) (by decide)).1,
   (c8_sidecar_failure_nonfatal "/w" ⟨"/out", "/l/h.csv", ",", 3, 0⟩
      ⟨fun _ => ⟨true, some 5, some 5⟩, fun _ => .success "d", true, true, true, false,
        ⟨⟨true, true, [], none⟩, true⟩⟩
      ⟨[], "/l/h.csv"⟩ none "/r/a.mkv" "t" none
      (by decide) (by decide) (by decide) (by decide) (by decide)).2.1,
   (c8_sidecar_failure_nonfatal "/w" ⟨"/out", "/l/h.csv", ",", 3, 0⟩
      ⟨fun _ => ⟨true, some 5, some 5⟩, fun _ => .success "d", true, true, true, false,
        ⟨⟨true, true, [], none⟩, true⟩⟩
      ⟨[], "/l/h.csv"⟩ none "/r/a.mkv" "t" none
      (by decide) (by decide) (by decide) (by decide) (by decide)).2.2.2.1⟩

/-- Claim C1: because the dedupe-check-insert-write section of _append_csv_row holds
both the I/O lock and the membership lock, any interleaving of completed appends is
a sequence of atomic appends; starting from a state whose seen set covers the ledger
rows, every such sequence leaves at most one data row per normalized path in the
ledger file; an append whose normalized path is already in the seen set reports
deduplicated and performs no file write, and a changed ledger can only come from an
append that freshly inserted the path into the seen set and reported success. -/
theorem c1_ledger_at_most_once :
    (∀ (cwd : String) (cfg : Settings) (reqs : List AppendReq) (st : ScriptState)
      (led : Ledger),
      cfg.csv_path ≠ "" → st.loaded_csv_path = cfg.csv_path → SeenCovers st led →
      AtMostOnce led → AtMostOnce (runAppends cwd cfg reqs st led).2) ∧
    (∀ (cwd : String) (cfg : Settings) (env : AppendEnv) (st : ScriptState) (led : Ledger)
      (e fp fn : String) (sz : Nat) (dur : Option Nat) (sha : String),
      cfg.csv_path ≠ "" → st.loaded_csv_path = cfg.csv_path → normcase fp ∈ st.seen →
      append_csv_row cwd cfg env st led e fp fn sz dur sha = (false, st, led)) ∧
    (∀ (cwd : String) (cfg : Settings) (env : AppendEnv) (st : ScriptState) (led : Ledger)
      (e fp fn : String) (sz : Nat) (dur : Option Nat) (sha : String),
      cfg.csv_path ≠ "" → st.loaded_csv_path = cfg.csv_path →
      (append_csv_row cwd cfg env st led e fp fn sz dur sha).2.2 ≠ led →
      normcase fp ∉ st.seen ∧
      normcase fp ∈ (append_csv_row cwd cfg env st led e fp fn sz dur sha).2.1.seen ∧
      (append_csv_row cwd cfg env st led e fp fn sz dur sha).1 = true) := by
  refine ⟨fun cwd cfg => runAppends_preserves cwd cfg, ?_, ?_⟩
  · intro cwd cfg env st led e fp fn sz dur sha h1 h2 hmem
    rw [append_csv_row_eval cwd cfg env st led e fp fn sz dur sha h1 h2, if_pos hmem]
  · intro cwd cfg env st led e fp fn sz dur sha h1 h2 hne
    rw [append_csv_row_eval cwd cfg env st led e fp fn sz dur sha h1 h2] at hne ⊢
    by_cases hmem : normcase fp ∈ st.seen
    · rw [if_pos hmem] at hne
      exact absurd rfl hne
    · rw [if_neg hmem] at hne ⊢
      by_cases hw : env.writeOk = true
      · rw [if_pos hw] at hne ⊢
        exact ⟨hmem, List.mem_cons_self _ _, rfl⟩
      · rw [if_neg hw] at hne
        exact absurd rfl hne

/-- Claim C1 witness: two identical concrete appends starting from a fresh state
leave at most one data row per key, and a concrete append for an already seen path
reports deduplicated with nothing changed. -/
theorem c1_ledger_at_most_once_witness :
    AtMostOnce (runAppends "/w" ⟨"", "/l/h.csv", ",", 3, 0⟩
      [⟨⟨⟨true, true, [], none⟩, true⟩, "t", "/r/a.mkv", "a.mkv", 7, none, "d"⟩,
       ⟨⟨⟨true, true, [], none⟩, true⟩, "t", "/r/a.mkv", "a.mkv", 7, none, "d"⟩]
      ⟨[], "/l/h.csv"⟩ none).2 ∧
    append_csv_row "/w" ⟨"", "/l/h.csv", ",", 3, 0⟩ ⟨⟨true, true, [], none⟩, true⟩
      ⟨["/r/a.mkv"], "/l/h.csv"⟩ (some [headerRow]) "t" "/r/a.mkv" "a.mkv" 7 none "d" =
      (false, ⟨["/r/a.mkv"], "/l/h.csv"⟩, some [headerRow]) :=
  ⟨c1_ledger_at_most_once.1 "/w" ⟨"", "/l/h.csv", ",", 3, 0⟩
      [⟨⟨⟨true, true, [], none⟩, true⟩, "t", "/r/a.mkv", "a.mkv", 7, none, "d"⟩,
       ⟨⟨⟨true, true, [], none⟩, true⟩, "t", "/r/a.mkv", "a.mkv", 7, none, "d"⟩]
      ⟨[], "/l/h.csv"⟩ none (by decide) rfl
      (fun k h => absurd h (by simp [dataCount]))
      (fun k => by simp [dataCount]),
   c1_ledger_at_most_once.2.1 "/w" ⟨"", "/l/h.csv", ",", 3, 0⟩ ⟨⟨true, true, [], none⟩, true⟩
      ⟨["/r/a.mkv"], "/l/h.csv"⟩ (some [headerRow]) "t" "/r/a.mkv" "a.mkv" 7 none "d"
      (by decide) rfl (by decide)⟩

-- Concrete sanity checks of the embedding (kept at the end of the development).
example : normpathL "/a ".data = "/a ".data := by decide

example : normpathL "/a/b/../c//.".data = "/a/c".data := by decide

example : normpathL "..//x".data = "../x".data := by decide

example : normpathL "//x/y".data = "//x/y".data := by decide

example : normpathL "///x".data = "/x".data := by decide

example : normpathL "".data = ".".data := by decide

example : to_abs_path "/w" "b/../c.mkv" = "/w/c.mkv" := by decide

example : dirname "/a/b/c.mkv" = "/a/b" := by decide

example : dirname "c.mkv" = "" := by decide

example : dirname "/c.mkv" = "/" := by decide

example : basename "/a/b/c.mkv" = "c.mkv" := by decide

example : pstrip "  /a " = "/a" := by decide

example :
    append_csv_row "/w" ⟨"", "/l/h.csv", ",", 3, 0⟩ ⟨⟨true, true, [], none⟩, true⟩
      ⟨[], "/l/h.csv"⟩ none "t" "/r/a.mkv" "a.mkv" 7 none "d1" =
    (true, ⟨["/r/a.mkv"], "/l/h.csv"⟩, some [headerRow, ledgerRow "t" "/r/a.mkv" "a.mkv" 7 none "d1"]) := by
  decide

example :
    append_csv_row "/w" ⟨"", "/l/h.csv", ",", 3, 0⟩ ⟨⟨true, true, [], none⟩, false⟩
      ⟨[], "/l/h.csv"⟩ none "t" "/r/a.mkv" "a.mkv" 7 none "d1" =
    (false, ⟨[], "/l/h.csv"⟩, none) := by
  decide

example :
    append_csv_row "/w" ⟨"", "/l/h.csv", ",", 3, 0⟩ ⟨⟨true, true, [], none⟩, true⟩
      ⟨["/r/a.mkv"], "/l/h.csv"⟩ (some [headerRow]) "t" "/r/a.mkv" "a.mkv" 7 none "d1" =
    (false, ⟨["/r/a.mkv"], "/l/h.csv"⟩, some [headerRow]) := by
  decide

example :
    wait_for_stable_file (fun _ => ⟨true, some 5, some 5⟩) 3 400 = (true, 5) := by decide

example :
    wait_for_stable_file (fun i => ⟨true, some i, some (i + 1)⟩) 3 0 = (false, 0) := by decide

example :
    hash_file_with_retries (fun i => if i = 1 then .success "d" else .osError) 3 0 = "d" := by
  decide

example :
    hash_file_with_retries (fun _ => .otherError) 3 0 = "" := by decide
